import Mathlib

/-!
Verification of the `formhandler` request-body content normalizer
(`formhandler.go`) against its natural-language specification.

The Go source is embedded shallowly:

* Go strings are Lean `String`s; the request body is treated as a sequence
  of bytes, one `Char` per byte (all inputs of interest are ASCII).
* Go maps `map[string][]string` are association lists
  `List (String × List String)` in insertion order.  Go map iteration
  order is unspecified; the association-list order is one admissible
  iteration order, and every theorem that depends on the outcome of an
  iteration is phrased so that it holds for the Go code under any order.
* Fallible Go functions returning `(T, error)` become `Except E T`.
* `http.MaxBytesReader` is modelled by its observable behaviour: the
  consumer sees the first `limit` bytes of the body and then, in place of
  end-of-file, the error `"http: request body too large"` whenever the
  body is longer than `limit` (`Terminator.tooLarge` below).
* The standard-library multipart parser (`r.ParseMultipartForm`), an
  external platform collaborator, is abstracted by its outcome: either a
  post-form value map plus a file map, or an error.  The repository's own
  code (`parseFormMultipart`) never inspects which error occurred, so
  `Except Unit` is a faithful interface.
* `r.ParseForm` for a POST `application/x-www-form-urlencoded` request is
  modelled from `net/http` and `net/url`: the body is read through the
  size-limited reader, parsed with `url.ParseQuery`, and the query-string
  parameters of the target URL are parsed and merged into `r.Form` after
  the body-derived pairs.
* `encoding/json`'s `Decoder.Decode` into `map[string]interface{}` is
  modelled by a JSON parser over the limited byte stream, mirroring the
  scanner's error classification (`SyntaxError`, `io.ErrUnexpectedEOF`,
  `io.EOF`, the size-limit read error) and the unmarshalling rules for
  maps (top-level `null` leaves the pre-initialised empty map unchanged;
  any other non-object top-level value is an `*json.UnmarshalTypeError`).
-/

/-- `net/http` status constants used by `formhandler.go`. -/
def StatusBadRequest : Nat := 400

def StatusRequestEntityTooLarge : Nat := 413

def StatusUnsupportedMediaType : Nat := 415

def StatusInternalServerError : Nat := 500

/-- `ParseError` from `formhandler.go`: an HTTP status classification and a
human-readable message. -/
structure ParseError where
  Status : Nat
  Msg : String
deriving DecidableEq, Repr

/-- `map[string][]string` (a `url.Values`) as an association list in
insertion order. -/
abbrev Form := List (String × List String)

/-- A `*multipart.FileHeader`: the fields the claims can observe. -/
structure FileHeader where
  Filename : String
  Size : Nat
deriving DecidableEq, Repr

/-- `map[string][]*multipart.FileHeader` as an association list. -/
abbrev Files := List (String × List FileHeader)

/-- Header-constant `headerValFormURLEncoded` from `formhandler.go`. -/
def headerValFormURLEncoded : String := "application/x-www-form-urlencoded"

/-- Header-constant `headerValApplicationJSON` from `formhandler.go`. -/
def headerValApplicationJSON : String := "application/json"

/-- Header-constant `headerValFormMultipart` from `formhandler.go`. -/
def headerValFormMultipart : String := "multipart/form-data"

/-- `megabyte` from `formhandler.go`. -/
def megabyte : Nat := 1048576

/-- `strings.HasPrefix` on the character-list representation. -/
def strHasPrefixChars : List Char → List Char → Bool
  | [], _ => true
  | _ :: _, [] => false
  | p :: ps, c :: cs => p == c && strHasPrefixChars ps cs

/-- `isMultipartFormHeader` from `formhandler.go`: the content-type header
carries the boundary as a suffix, so the check is by prefix
(`strings.HasPrefix`). -/
def isMultipartFormHeader (contentType : String) : Bool :=
  strHasPrefixChars headerValFormMultipart.data contentType.data

/-- `getContentType` from `formhandler.go`, applied to the value of the
`Content-Type` header (`header.Get` yields `""` when the header is absent). -/
def getContentType (contentType : String) : String :=
  if isMultipartFormHeader contentType then headerValFormMultipart
  else contentType

/-- The test of `reduceUnansweredFields` from `formhandler.go`:
`values == nil || len(values) == 0 || (len(values) == 1 && values[0] == "")`
(a nil slice and an empty slice both model as `[]`). -/
def isUnanswered : List String → Bool
  | [] => true
  | [v] => v == ""
  | _ => false

/-- `reduceUnansweredFields` from `formhandler.go`: deletes every entry whose
value slice is absent, empty, or a single empty string.  Go deletes the
current key while ranging over the map, which is equivalent to a filter. -/
def reduceUnansweredFields (results : Form) : Form :=
  results.filter (fun kv => !isUnanswered kv.2)

/-! ### `url.ParseQuery` (net/url), as invoked by `Request.ParseForm` -/

/-- Value of a hexadecimal digit, as accepted by `url.unhex`. -/
def unhexDigit (c : Char) : Option Nat :=
  if '0' ≤ c ∧ c ≤ '9' then some (c.toNat - '0'.toNat)
  else if 'a' ≤ c ∧ c ≤ 'f' then some (c.toNat - 'a'.toNat + 10)
  else if 'A' ≤ c ∧ c ≤ 'F' then some (c.toNat - 'A'.toNat + 10)
  else none

/-- `url.QueryUnescape`: percent-decodes, maps `+` to space, and rejects
invalid percent escapes.  Each `%XX` produces one byte (one `Char` here). -/
def queryUnescapeList : List Char → Option (List Char)
  | [] => some []
  | '%' :: c1 :: c2 :: rest =>
    match unhexDigit c1, unhexDigit c2 with
    | some h1, some h2 => (queryUnescapeList rest).map (Char.ofNat (h1 * 16 + h2) :: ·)
    | _, _ => none
  | '%' :: _ => none
  | '+' :: rest => (queryUnescapeList rest).map (' ' :: ·)
  | c :: rest => (queryUnescapeList rest).map (c :: ·)

/-- `strings.Cut(s, sep)` for a one-character separator: the part before the
first occurrence and the part after it (the whole string and `[]` when the
separator does not occur). -/
def cutChar (sep : Char) : List Char → List Char × List Char
  | [] => ([], [])
  | c :: rest =>
    if c = sep then ([], rest)
    else
      ((cutChar sep rest).1.cons c, (cutChar sep rest).2)

/-- Worker for `ampSegments`: splits on every `&`, the segment read so far
accumulated in reverse. -/
def ampSegmentsAux : List Char → List Char → List (List Char)
  | [], acc => [acc.reverse]
  | '&' :: rest, acc => acc.reverse :: ampSegmentsAux rest []
  | c :: rest, acc => ampSegmentsAux rest (c :: acc)

/-- Splitting a query on `&`, as the `strings.Cut` loop of `url.parseQuery`
does: the empty query produces no segments. -/
def ampSegments : List Char → List (List Char)
  | [] => []
  | cs => ampSegmentsAux cs []

/-- `m[key] = append(m[key], value)` on the association-list model: append
the value to the key's slice, or start a new entry at the end. -/
def addValue (m : Form) (key : String) (value : String) : Form :=
  match m with
  | [] => [(key, [value])]
  | (k, vs) :: rest =>
    if k = key then (k, vs ++ [value]) :: rest
    else (k, vs) :: addValue rest key value

/-- One iteration of the `url.parseQuery` loop on a single `&`-segment:
skips empty segments, flags segments containing `;`, cuts at the first `=`,
unescapes key and value (flagging failures), and otherwise appends the pair.
Returns the updated map and error flag. -/
def parseQuerySegment (m : Form) (bad : Bool) (seg : List Char) : Form × Bool :=
  if seg.contains ';' then (m, true)
  else if seg.isEmpty then (m, bad)
  else
    let (rawKey, rawVal) := cutChar '=' seg
    match queryUnescapeList rawKey, queryUnescapeList rawVal with
    | some key, some value => (addValue m (String.mk key) (String.mk value), bad)
    | _, _ => (m, true)

/-- `url.parseQuery` (hence `url.ParseQuery`): the collected `url.Values`
plus whether any segment produced an error.  Go keeps collecting after an
error; only the flag matters to `Request.ParseForm`'s caller here. -/
def parseQueryAux (segs : List (List Char)) (m : Form) (bad : Bool) : Form × Bool :=
  match segs with
  | [] => (m, bad)
  | seg :: rest =>
    let (m', bad') := parseQuerySegment m bad seg
    parseQueryAux rest m' bad'

/-- `url.ParseQuery` as an `Except`: the values when no segment errored. -/
def parseQuery (s : String) : Except Unit Form :=
  let (m, bad) := parseQueryAux (ampSegments s.data) [] false
  if bad then .error () else .ok m

/-- `http.copyValues(dst, src)`: for each key of `src`, append its values to
the key's slice in `dst`. -/
def copyValues (dst : Form) (src : Form) : Form :=
  src.foldl (fun d kv => kv.2.foldl (fun d' v => addValue d' kv.1 v) d) dst

/-- `Request.ParseForm` (net/http) for a POST request with content type
`application/x-www-form-urlencoded` whose body has been wrapped by
`http.MaxBytesReader(w, body, limit)`: `parsePostForm` reads the whole body
through the limited reader (erroring when the body is longer than the limit,
since the reader fails the read past `limit` bytes) and parses it with
`url.ParseQuery`; then the target URL's raw query is parsed the same way and
its pairs are merged into `r.Form` after the body pairs.  Any of the three
failures makes `ParseForm` return a non-nil error. -/
def goParseForm (body : String) (rawQuery : String) (limit : Nat) :
    Except Unit Form :=
  if limit < body.data.length then .error ()
  else
    match parseQuery body, parseQuery rawQuery with
    | .ok bodyVals, .ok queryVals => .ok (copyValues bodyVals queryVals)
    | _, _ => .error ()

/-- `parseFormURLEncoded` from `formhandler.go`: `r.ParseForm()`, a fixed
`BadRequest` on any parse error, then `r.Form` through the field reducer. -/
def parseFormURLEncoded (body : String) (rawQuery : String) (limit : Nat) :
    Except ParseError Form :=
  match goParseForm body rawQuery limit with
  | .error _ => .error ⟨StatusBadRequest, "Invalid URL encoded form"⟩
  | .ok form => .ok (reduceUnansweredFields form)

/-- `parseFormMultipart` from `formhandler.go`, over the outcome of the
platform's `r.ParseMultipartForm(maxMemory)` (abstracted: value map
`r.PostForm` and file map `r.MultipartForm.File` on success, or an error —
the code never looks at which error): a fixed `BadRequest` on any parse
error, else `r.PostForm` through the field reducer alongside the file map. -/
def parseFormMultipart (outcome : Except Unit (Form × Files)) :
    Except ParseError (Form × Files) :=
  match outcome with
  | .error _ => .error ⟨StatusBadRequest, "Invalid URL encoded form"⟩
  | .ok (postForm, files) => .ok (reduceUnansweredFields postForm, files)

/-! ### `encoding/json` Decoder over the size-limited body stream -/

/-- What the stream yields once its characters are exhausted: clean
end-of-file, or the `http.MaxBytesReader` error `"http: request body too
large"` (the body continued past the ceiling). -/
inductive Terminator where
  | eof
  | tooLarge
deriving DecidableEq, Repr

/-- The error classes of `json.Decoder.Decode` that `parseApplicationJSON`
distinguishes.  `syn` carries the number of characters remaining from the
offending byte to the end of the stream, from which the `SyntaxError`
offset is recovered. -/
inductive Jerr where
  | syn (remaining : Nat)
  | uneof
  | eofClean
  | tooLarge
deriving DecidableEq, Repr

/-- Running out of stream mid-value: `io.ErrUnexpectedEOF` on a clean EOF,
the size-limit error otherwise. -/
def outOfInput : Terminator → Jerr
  | .eof => .uneof
  | .tooLarge => .tooLarge

/-- A decoded JSON value as `encoding/json` unmarshals it into
`interface{}`: strings, numbers (the literal text; its numeric value is
never inspected by `formhandler.go`), booleans, null, arrays, and objects
(duplicate keys already collapsed, last occurrence winning, as for a Go
map). -/
inductive Jvalue where
  | str (s : String)
  | num (lit : String)
  | bool (b : Bool)
  | null
  | arr (elems : List Jvalue)
  | obj (fields : List (String × Jvalue))

/-- The whitespace the `encoding/json` scanner skips between tokens. -/
def isJsonSpace (c : Char) : Bool :=
  c = ' ' || c = '\t' || c = '\n' || c = '\r'

/-- Skip scanner whitespace. -/
def skipWS : List Char → List Char
  | [] => []
  | c :: cs => if isJsonSpace c then skipWS cs else c :: cs

/-- Four hex digits of a `\uXXXX` escape. -/
def hex4 (a b c d : Char) : Option Nat :=
  match unhexDigit a, unhexDigit b, unhexDigit c, unhexDigit d with
  | some x, some y, some z, some w => some (((x * 16 + y) * 16 + z) * 16 + w)
  | _, _, _, _ => none

/-- A scalar `Char` for a code point, the Unicode replacement character for
values outside the scalar range (as Go substitutes for lone surrogates). -/
def charOrReplacement (n : Nat) : Char :=
  if n < 0xD800 ∨ (0xE000 ≤ n ∧ n < 0x110000) then
    Char.ofNat n
  else
    Char.ofNat 0xFFFD

/-- Does the input start with a `\uXXXX` escape denoting a low surrogate?
If so, yield its value (the characters after it are the input dropping six
characters).  Used for Go's surrogate-pair combination in `unquote`. -/
def lowSurrogateEscape : List Char → Option Nat
  | '\\' :: 'u' :: a :: b :: c :: d :: _ =>
    match hex4 a b c d with
    | some m => if 0xDC00 ≤ m ∧ m < 0xE000 then some m else none
    | none => none
  | _ => none

/-- The remainder of a JSON string after its opening quote, per the
`encoding/json` scanner (reject raw control characters and invalid escapes)
and `unquote` (decode escapes; combine surrogate pairs, substituting U+FFFD
for a lone surrogate, which also covers a following escape with invalid hex
digits: the recursion re-reads it and raises the scanner's syntax error).
Returns the decoded characters and the input after the closing quote.  The
fuel only bounds the recursion (each call consumes input); callers supply
more fuel than any input can use. -/
def parseStrBody (t : Terminator) : Nat → List Char → Except Jerr (List Char × List Char)
  | 0, _ => .error (.syn 0)
  | fuel + 1, cs =>
    match cs with
    | [] => .error (outOfInput t)
    | '"' :: rest => .ok ([], rest)
    | '\\' :: rest =>
      match rest with
      | [] => .error (outOfInput t)
      | 'u' :: a :: b :: c :: d :: rest2 =>
        match hex4 a b c d with
        | none => .error (.syn (rest2.length + 5))
        | some n =>
          if 0xD800 ≤ n ∧ n < 0xDC00 then
            match lowSurrogateEscape rest2 with
            | some m =>
              (parseStrBody t fuel (rest2.drop 6)).map
                (fun (s, r) =>
                  (Char.ofNat (0x10000 + (n - 0xD800) * 0x400 + (m - 0xDC00)) :: s, r))
            | none =>
              (parseStrBody t fuel rest2).map (fun (s, r) => (charOrReplacement n :: s, r))
          else
            (parseStrBody t fuel rest2).map (fun (s, r) => (charOrReplacement n :: s, r))
      | 'u' :: _ => .error (outOfInput t)
      | e :: rest2 =>
        if e = '"' then (parseStrBody t fuel rest2).map (fun (s, r) => ('"' :: s, r))
        else if e = '\\' then (parseStrBody t fuel rest2).map (fun (s, r) => ('\\' :: s, r))
        else if e = '/' then (parseStrBody t fuel rest2).map (fun (s, r) => ('/' :: s, r))
        else if e = 'b' then (parseStrBody t fuel rest2).map (fun (s, r) => (Char.ofNat 8 :: s, r))
        else if e = 'f' then (parseStrBody t fuel rest2).map (fun (s, r) => (Char.ofNat 12 :: s, r))
        else if e = 'n' then (parseStrBody t fuel rest2).map (fun (s, r) => ('\n' :: s, r))
        else if e = 'r' then (parseStrBody t fuel rest2).map (fun (s, r) => (Char.ofNat 13 :: s, r))
        else if e = 't' then (parseStrBody t fuel rest2).map (fun (s, r) => ('\t' :: s, r))
        else .error (.syn (rest2.length + 1))
    | c :: rest =>
      if c.toNat < 0x20 then .error (.syn (rest.length + 1))
      else (parseStrBody t fuel rest).map (fun (s, r) => (c :: s, r))

/-- Longest digit run at the front of the input. -/
def takeDigits : List Char → List Char × List Char
  | [] => ([], [])
  | c :: rest =>
    if c.isDigit then
      ((takeDigits rest).1.cons c, (takeDigits rest).2)
    else ([], c :: rest)

/-- The optional fraction part: `.` followed by one or more digits.  Absent
when the input does not start with `.`. -/
def parseFrac (t : Terminator) (cs : List Char) :
    Except Jerr (List Char × List Char) :=
  match cs with
  | '.' :: rest =>
    match rest with
    | [] => .error (outOfInput t)
    | c :: _ =>
      if c.isDigit then
        let (ds, rest2) := takeDigits rest
        .ok ('.' :: ds, rest2)
      else .error (.syn rest.length)
  | _ => .ok ([], cs)

/-- The optional exponent part: `e`/`E`, an optional sign, one or more
digits.  Absent when the input does not start with `e` or `E`. -/
def parseExp (t : Terminator) (cs : List Char) :
    Except Jerr (List Char × List Char) :=
  match cs with
  | e :: rest =>
    if e = 'e' ∨ e = 'E' then
      match rest with
      | [] => .error (outOfInput t)
      | s :: rest2 =>
        if s = '+' ∨ s = '-' then
          match rest2 with
          | [] => .error (outOfInput t)
          | c :: _ =>
            if c.isDigit then
              let (ds, rest3) := takeDigits rest2
              .ok (e :: s :: ds, rest3)
            else .error (.syn rest2.length)
        else if s.isDigit then
          let (ds, rest2') := takeDigits rest
          .ok (e :: ds, rest2')
        else .error (.syn rest.length)
    else .ok ([], cs)
  | [] => .ok ([], cs)

/-- A JSON number per the scanner's grammar
`-?(0|[1-9][0-9]*)(.[0-9]+)?([eE][+-]?[0-9]+)?`, starting at a `-` or a
digit (guaranteed by the caller).  The number ends at the first character
that cannot extend it; as in the scanner, that character is left in the
remainder (at the top level the decoder then finishes the value and any
complaint about it surfaces on the next `Decode`). -/
def parseNum (t : Terminator) (cs : List Char) :
    Except Jerr (List Char × List Char) :=
  match cs with
  | '-' :: rest =>
    match rest with
    | [] => .error (outOfInput t)
    | c :: _ =>
      if c.isDigit then
        (parseNum t rest).map (fun (l, r) => ('-' :: l, r))
      else .error (.syn rest.length)
  | '0' :: rest =>
    match parseFrac t rest with
    | .error e => .error e
    | .ok (f, rest2) =>
      match parseExp t rest2 with
      | .error e => .error e
      | .ok (ex, rest3) => .ok ('0' :: (f ++ ex), rest3)
  | c :: rest =>
    if c.isDigit then
      match parseFrac t (takeDigits rest).2 with
      | .error e => .error e
      | .ok (f, rest2) =>
        match parseExp t rest2 with
        | .error e => .error e
        | .ok (ex, rest3) => .ok (c :: (takeDigits rest).1 ++ f ++ ex, rest3)
    else .error (.syn (rest.length + 1))
  | [] => .error (outOfInput t)

/-- Consume an expected literal tail (`rue`, `alse`, `ull`): a mismatching
character is the scanner's "invalid character in literal" syntax error,
running out of input is `outOfInput`. -/
def expectLit (t : Terminator) : List Char → List Char → Except Jerr (List Char)
  | [], rest => .ok rest
  | _ :: _, [] => .error (outOfInput t)
  | l :: ls, c :: rest =>
    if c = l then expectLit t ls rest else .error (.syn (rest.length + 1))

/-- Install a key/value pair into the decoded object as assignment to a Go
map does: replace the value of an existing key (last occurrence wins) or
append a new entry. -/
def insertField (fields : List (String × Jvalue)) (key : String) (v : Jvalue) :
    List (String × Jvalue) :=
  match fields with
  | [] => [(key, v)]
  | (k, w) :: rest =>
    if k = key then (k, v) :: rest
    else (k, w) :: insertField rest key v

mutual

/-- One JSON value from the stream (after skipping leading whitespace),
dispatching on the first character as the scanner's `stateBeginValue`
does.  The fuel only bounds the recursion; `decodeOne` supplies more fuel
than any input can consume. -/
def parseValue (t : Terminator) : Nat → List Char → Except Jerr (Jvalue × List Char)
  | 0, _ => .error (.syn 0)
  | fuel + 1, cs =>
    match skipWS cs with
    | [] => .error (outOfInput t)
    | '{' :: rest => parseObjFields t fuel (skipWS rest) true []
    | '[' :: rest =>
      (parseArrElems t fuel (skipWS rest) true).map
        (fun (vs, r) => (Jvalue.arr vs, r))
    | '"' :: rest =>
      (parseStrBody t fuel rest).map (fun (s, r) => (Jvalue.str (String.mk s), r))
    | 't' :: rest =>
      (expectLit t ['r', 'u', 'e'] rest).map (fun r => (Jvalue.bool true, r))
    | 'f' :: rest =>
      (expectLit t ['a', 'l', 's', 'e'] rest).map (fun r => (Jvalue.bool false, r))
    | 'n' :: rest =>
      (expectLit t ['u', 'l', 'l'] rest).map (fun r => (Jvalue.null, r))
    | c :: rest =>
      if c = '-' ∨ c.isDigit then
        (parseNum t (c :: rest)).map (fun (l, r) => (Jvalue.num (String.mk l), r))
      else .error (.syn (rest.length + 1))
termination_by structural fuel _ => fuel

/-- The members of a JSON object, entered just after `{` (`first = true`) or
just after a `,` (`first = false`), whitespace already skipped: a closing
`}` is only legal before the first member; otherwise a quoted key, `:`, a
value, and `,` or `}`.  Members accumulate into the Go map. -/
def parseObjFields (t : Terminator) : Nat → List Char → Bool →
    List (String × Jvalue) → Except Jerr (Jvalue × List Char)
  | 0, _, _, _ => .error (.syn 0)
  | _ + 1, [], _, _ => .error (outOfInput t)
  | _ + 1, '}' :: rest, first, acc =>
    if first then .ok (Jvalue.obj acc, rest)
    else .error (.syn (rest.length + 1))
  | fuel + 1, '"' :: rest, _, acc =>
    match parseStrBody t fuel rest with
    | .error e => .error e
    | .ok (k, r1) =>
      match skipWS r1 with
      | [] => .error (outOfInput t)
      | ':' :: r2 =>
        match parseValue t fuel r2 with
        | .error e => .error e
        | .ok (v, r3) =>
          match skipWS r3 with
          | [] => .error (outOfInput t)
          | ',' :: r4 =>
            parseObjFields t fuel (skipWS r4) false (insertField acc (String.mk k) v)
          | '}' :: r4 => .ok (Jvalue.obj (insertField acc (String.mk k) v), r4)
          | _ :: r4 => .error (.syn (r4.length + 1))
      | _ :: r2 => .error (.syn (r2.length + 1))
  | _ + 1, _ :: rest, _, _ => .error (.syn (rest.length + 1))
termination_by structural fuel _ _ _ => fuel

/-- The elements of a JSON array, entered just after `[` (`first = true`) or
just after a `,` (`first = false`), whitespace already skipped: a closing
`]` is only legal before the first element; otherwise a value followed by
`,` or `]`. -/
def parseArrElems (t : Terminator) : Nat → List Char → Bool →
    Except Jerr (List Jvalue × List Char)
  | 0, _, _ => .error (.syn 0)
  | _ + 1, [], _ => .error (outOfInput t)
  | _ + 1, ']' :: rest, first =>
    if first then .ok ([], rest)
    else .error (.syn (rest.length + 1))
  | fuel + 1, cs, _ =>
    match parseValue t fuel cs with
    | .error e => .error e
    | .ok (v, r1) =>
      match skipWS r1 with
      | [] => .error (outOfInput t)
      | ',' :: r2 =>
        match parseArrElems t fuel (skipWS r2) false with
        | .error e => .error e
        | .ok (vs, r3) => .ok (v :: vs, r3)
      | ']' :: r2 => .ok ([v], r2)
      | _ :: r2 => .error (.syn (r2.length + 1))
termination_by structural fuel _ _ => fuel

end

/-- Values whose end the scanner only recognises on the following byte (or
on a clean EOF): numbers, literals, and strings.  Objects and arrays are
self-delimited (the scanner completes them on `}`/`]` without reading
further), so only the former turn a size-limit cut at the exact end of the
value into the size-limit error. -/
def needsDelim : Jvalue → Bool
  | .obj _ => false
  | .arr _ => false
  | _ => true

/-- One `json.Decoder.Decode` worth of scanning from the limited stream:
skip whitespace; nothing left is `io.EOF` (or the size-limit error when the
stream was cut); otherwise parse one value.  A value that ends exactly at a
size-limit cut and needs a delimiting byte surfaces the size-limit read
error instead of completing. -/
def decodeOne (cs : List Char) (t : Terminator) :
    Except Jerr (Jvalue × List Char) :=
  match skipWS cs with
  | [] => .error (match t with | .eof => .eofClean | .tooLarge => .tooLarge)
  | c :: rest =>
    match parseValue t (2 * cs.length + 8) (c :: rest) with
    | .error e => .error e
    | .ok (v, r) =>
      if r.isEmpty ∧ needsDelim v ∧ t = .tooLarge then .error .tooLarge
      else .ok (v, r)

/-- Unmarshalling the first decoded value into the pre-initialised
`jsonContent := map[string]interface{}{}`: an object fills the map, `null`
leaves it empty (JSON null into a map is a no-op), anything else is an
`*json.UnmarshalTypeError`. -/
def decodeIntoMap : Jvalue → Except Unit (List (String × Jvalue))
  | .obj fields => .ok fields
  | .null => .ok []
  | _ => .error ()

/-- The error classification of `parseApplicationJSON` in `formhandler.go`
for a failing first `Decode` (`errors.As` on `*json.SyntaxError`,
`errors.Is` on `io.ErrUnexpectedEOF` and `io.EOF`, the string comparison
with the `http.MaxBytesReader` error).  `streamLen` recovers the
`SyntaxError` offset from the remaining-character count. -/
def jerrToParseError (streamLen : Nat) : Jerr → ParseError
  | .syn remaining =>
    ⟨StatusBadRequest,
      s!"Request body contains badly-formed JSON (at position {streamLen - remaining + 1})"⟩
  | .uneof => ⟨StatusBadRequest, "Request body contains badly-formed JSON"⟩
  | .eofClean => ⟨StatusBadRequest, "Request body must not be empty"⟩
  | .tooLarge => ⟨StatusRequestEntityTooLarge, "Request body too large"⟩

/-- The `ParseError` that the loop of `parseMapInterface` builds for a field
whose value violates the schema (the message of each `return` statement,
naming the offending field). -/
def fieldError (key : String) : Jvalue → ParseError
  | .str _ =>
    ⟨StatusBadRequest,
      s!"JSON object contains invalid value for field \"{key}\", cannot use an empty string"⟩
  | .arr elems =>
    if elems.isEmpty then
      ⟨StatusBadRequest,
        s!"JSON object contains invalid value for field \"{key}\", cannot use an empty array"⟩
    else
      ⟨StatusBadRequest,
        s!"JSON object contains invalid array for field \"{key}\", array values must be exclusively strings"⟩
  | _ =>
    ⟨StatusBadRequest,
      s!"JSON object contains invalid value for field \"{key}\", values must be string or []string types"⟩

/-- The `value.(string)` element check of `parseMapInterface`'s array loop:
all elements that are JSON strings, or failure at the first one that is
not. -/
def allStrings : List Jvalue → Option (List String)
  | [] => some []
  | .str s :: rest => (allStrings rest).map (s :: ·)
  | _ :: _ => none

/-- The field loop of `parseMapInterface` from `formhandler.go`: a
non-empty string becomes a one-element slice; a non-empty all-string array
becomes its elements; everything else aborts the whole parse with the
error named after the offending field. -/
def parseFields : List (String × Jvalue) →
    Except ParseError (List (String × List String))
  | [] => .ok []
  | (key, Jvalue.str v) :: rest =>
    if v = "" then .error (fieldError key (Jvalue.str v))
    else (parseFields rest).map ((key, [v]) :: ·)
  | (key, Jvalue.arr elems) :: rest =>
    if elems.isEmpty then .error (fieldError key (Jvalue.arr elems))
    else
      match allStrings elems with
      | none => .error (fieldError key (Jvalue.arr elems))
      | some ss => (parseFields rest).map ((key, ss) :: ·)
  | (key, v) :: _ => .error (fieldError key v)

/-- `parseMapInterface` from `formhandler.go`: an empty object is rejected
up front, then the field loop runs. -/
def parseMapInterface (mapInterface : List (String × Jvalue)) :
    Except ParseError (List (String × List String)) :=
  if mapInterface.isEmpty then
    .error ⟨StatusBadRequest, "JSON object contains no fields"⟩
  else parseFields mapInterface

/-- The limited stream `http.MaxBytesReader` presents to the JSON decoder:
the whole body followed by EOF when it fits the ceiling, its first `limit`
characters followed by the size-limit error otherwise. -/
def mkStream (cs : List Char) (limit : Nat) : List Char × Terminator :=
  if cs.length ≤ limit then (cs, Terminator.eof)
  else (cs.take limit, Terminator.tooLarge)

/-- `parseApplicationJSON` from `formhandler.go`, reading the body through
`http.MaxBytesReader(w, body, maxFormSize)`: decode one value into the
empty map (classifying stream errors; a non-object, non-null top level is
an unmarshal type error that falls into the `default` branch, status 500);
then require the second `Decode` to return exactly `io.EOF` — which it does
precisely when only whitespace remains and the stream terminator is a
clean EOF; finally validate the map with `parseMapInterface`. -/
def parseApplicationJSON (body : String) (maxFormSize : Nat) :
    Except ParseError (List (String × List String)) :=
  let stream := mkStream body.data maxFormSize
  match decodeOne stream.1 stream.2 with
  | .error e => .error (jerrToParseError stream.1.length e)
  | .ok (v, rest) =>
    match decodeIntoMap v with
    | .error _ => .error ⟨StatusInternalServerError, "JSON parsing error"⟩
    | .ok jsonContent =>
      if (skipWS rest).isEmpty ∧ stream.2 = Terminator.eof then
        parseMapInterface jsonContent
      else
        .error ⟨StatusBadRequest, "Request body must only contain a single JSON object"⟩

/-! ### `GetFormContentWithConfig` / `GetFormContent` -/

/-- The parts of an `*http.Request` that `GetFormContentWithConfig`
observes: the `Content-Type` header value (`""` when absent), the raw body,
the raw query of the target URL, and — for the platform multipart parser,
which this repository delegates to — the outcome `r.ParseMultipartForm`
produces for this request under the ambient configuration. -/
structure Request where
  contentType : String
  body : String
  rawQuery : String
  multipartOutcome : Except Unit (Form × Files)

/-- The triple `GetFormContentWithConfig`'s closure returns.  The `err`
field models the Go `error` interface: `none` is the nil interface, and
`some pe` an interface value holding a `*ParseError` pointer `pe` (itself
`none` for a nil pointer).  Assigning the `*ParseError` return of the
parse helpers to the `error`-typed variable boxes the pointer, so a nil
`*ParseError` still produces a non-nil `error` (Go's typed-nil interface
semantics). -/
structure GoFormResult where
  results : Option Form
  files : Option Files
  err : Option (Option ParseError)
deriving DecidableEq, Repr

/-- `GetFormContentWithConfig` from `formhandler.go`: dispatch on
`getContentType`, wrap the body in the applicable `http.MaxBytesReader`
ceiling, run the selected decoder, and return its results with the boxed
error.  `maxMemory` is forwarded to the platform's `r.ParseMultipartForm`,
absorbed here by the request's `multipartOutcome`. -/
def GetFormContentWithConfig (maxFormSize : Nat) (maxFormWithFilesSize : Nat)
    (maxMemory : Nat) (r : Request) : GoFormResult :=
  let _ := maxMemory
  let ct := getContentType r.contentType
  if ct = headerValApplicationJSON then
    match parseApplicationJSON r.body maxFormSize with
    | .ok results => ⟨some results, none, some none⟩
    | .error pe => ⟨none, none, some (some pe)⟩
  else if ct = headerValFormURLEncoded then
    match parseFormURLEncoded r.body r.rawQuery maxFormSize with
    | .ok results => ⟨some results, none, some none⟩
    | .error pe => ⟨none, none, some (some pe)⟩
  else if ct = headerValFormMultipart then
    let _ := maxFormWithFilesSize
    match parseFormMultipart r.multipartOutcome with
    | .ok (results, files) => ⟨some results, some files, some none⟩
    | .error pe => ⟨none, none, some (some pe)⟩
  else if ct = "" then
    ⟨none, none, some (some ⟨StatusUnsupportedMediaType, "Content-Type header is required"⟩)⟩
  else
    ⟨none, none,
      some (some ⟨StatusUnsupportedMediaType, s!"Content-Type header {ct} is unsupported"⟩)⟩

/-- `GetFormContent` from `formhandler.go`: the configured form with the
default ceilings. -/
def GetFormContent (r : Request) : GoFormResult :=
  GetFormContentWithConfig megabyte (megabyte * 10) (megabyte * 10) r

/-! ### Helper lemmas -/

/-- Entries surviving the field reducer are exactly the entries of the input
that are not unanswered. -/
theorem mem_reduceUnansweredFields (m : Form) (k : String) (vs : List String) :
    (k, vs) ∈ reduceUnansweredFields m ↔ (k, vs) ∈ m ∧ isUnanswered vs = false := by
  simp [reduceUnansweredFields, List.mem_filter]

/-- The reducer's test holds exactly for `[]` and `[""]`. -/
theorem isUnanswered_eq_false_iff (vs : List String) :
    isUnanswered vs = false ↔ ¬(vs = [] ∨ vs = [""]) := by
  match vs with
  | [] => simp [isUnanswered]
  | [v] => simp [isUnanswered]
  | v :: w :: rest => simp [isUnanswered]

/-- A surviving entry is neither empty nor the singleton empty string. -/
theorem reduced_entry_nonempty (m : Form) (k : String) (vs : List String)
    (h : (k, vs) ∈ reduceUnansweredFields m) : vs ≠ [] ∧ vs ≠ [""] := by
  have h2 := ((mem_reduceUnansweredFields m k vs).mp h).2
  have h3 := (isUnanswered_eq_false_iff vs).mp h2
  constructor
  · intro he
    exact h3 (Or.inl he)
  · intro he
    exact h3 (Or.inr he)

-- Equality of decoder outcomes is decidable, so the model can be evaluated
-- at concrete inputs.
deriving instance DecidableEq for Except

/-! ### Claim theorems -/

/-- Claim C1 (code bug): the URL-encoded decoder returns `r.Form`, which
merges the target URL's query-string parameters after the body pairs, so a
request `POST /?a=b` with body `c=d` yields `{c: [d], a: [b]}` — the query
parameter `a` appears in the result, contrary to the claim (and to the
repository's stated goal of ignoring query-string values; the multipart
path uses `r.PostForm`, which would exclude it). -/
theorem c1_urlencoded_includes_query_params :
    parseFormURLEncoded "c=d" "a=b" megabyte = .ok [("c", ["d"]), ("a", ["b"])] ∧
    ("a", ["b"]) ∈ [("c", ["d"]), ("a", ["b"])] := by
  exact ⟨by decide, by decide⟩

/-- Claim C2 (code bug): every `r.ParseMultipartForm` failure — malformed
boundary, truncated body, or ceiling overrun alike — makes
`parseFormMultipart` return status `BadRequest` with the message
`"Invalid URL encoded form"`, not the claimed `"invalid multipart form"`,
and never `PayloadTooLarge`. -/
theorem c2_multipart_failure_message :
    parseFormMultipart (.error ()) =
      .error ⟨StatusBadRequest, "Invalid URL encoded form"⟩ ∧
    "Invalid URL encoded form" ≠ "invalid multipart form" ∧
    StatusBadRequest ≠ StatusRequestEntityTooLarge := by
  exact ⟨rfl, by decide, by decide⟩

/-- Claim C8 (code bug): on a successful JSON parse,
`GetFormContentWithConfig` returns populated `FormValues` together with a
non-nil `error`: the nil `*ParseError` returned by `parseApplicationJSON`
is boxed into the `error`-typed result (`some none` here), which compares
unequal to the nil interface.  A non-nil returned error therefore does not
imply absent results. -/
theorem c8_success_returns_non_nil_error :
    (GetFormContentWithConfig megabyte (megabyte * 10) (megabyte * 10)
        ⟨"application/json", "\x7b\"a\":\"b\"\x7d", "", .error ()⟩).err ≠ none ∧
    (GetFormContentWithConfig megabyte (megabyte * 10) (megabyte * 10)
        ⟨"application/json", "\x7b\"a\":\"b\"\x7d", "", .error ()⟩).results =
      some [("a", ["b"])] := by
  exact ⟨by decide, by decide⟩

/-- Claim C6: every field in a successfully parsed URL-encoded or multipart
result maps to a non-empty value sequence that is not the singleton empty
string — the field reducer removes the offending entries before either
decoder returns. -/
theorem c6_reduced_invariant :
    ∀ (body rawQuery : String) (limit : Nat) (res : Form)
      (outcome : Except Unit (Form × Files)) (files : Files),
    (parseFormURLEncoded body rawQuery limit = .ok res →
      ∀ k vs, (k, vs) ∈ res → vs ≠ [] ∧ vs ≠ [""]) ∧
    (parseFormMultipart outcome = .ok (res, files) →
      ∀ k vs, (k, vs) ∈ res → vs ≠ [] ∧ vs ≠ [""]) := by
  intro body rawQuery limit res outcome files
  constructor
  · intro h k vs hmem
    unfold parseFormURLEncoded at h
    cases hg : goParseForm body rawQuery limit with
    | error e => rw [hg] at h; exact absurd h (by simp)
    | ok form =>
      rw [hg] at h
      simp only [Except.ok.injEq] at h
      subst h
      exact reduced_entry_nonempty form k vs hmem
  · intro h k vs hmem
    unfold parseFormMultipart at h
    cases outcome with
    | error e => simp at h
    | ok pf =>
      obtain ⟨postForm, fs⟩ := pf
      simp only [Except.ok.injEq, Prod.mk.injEq] at h
      obtain ⟨h1, h2⟩ := h
      subst h1
      exact reduced_entry_nonempty postForm k vs hmem

/-- Witness for C6 at a concrete input: the body `field1=value1&field2=`
parses to `{field1: [value1]}` and the surviving sequence is well formed. -/
theorem c6_witness :
    (["value1"] : List String) ≠ [] ∧ (["value1"] : List String) ≠ [""] :=
  (c6_reduced_invariant "field1=value1&field2=" "" megabyte
      [("field1", ["value1"])] (.error ()) []).1 (by decide) "field1" ["value1"]
    (by decide)

/-- Claim C9: the reducer removes exactly the entries whose sequence is `[]`
or `[""]` — any sequence of two or more elements survives, even all-empty
ones — and the URL-encoded body `a=&a=` indeed parses to `{a: ["", ""]}`. -/
theorem c9_reducer_removes_only_unanswered :
    (∀ (m : Form) (k : String) (vs : List String),
      (k, vs) ∈ reduceUnansweredFields m ↔ (k, vs) ∈ m ∧ ¬(vs = [] ∨ vs = [""])) ∧
    parseFormURLEncoded "a=&a=" "" megabyte = .ok [("a", ["", ""])] := by
  constructor
  · intro m k vs
    rw [mem_reduceUnansweredFields, isUnanswered_eq_false_iff]
  · decide

/-- Witness for C9: the two-element all-empty sequence for `a` survives the
reducer. -/
theorem c9_witness :
    ("a", ["", ""]) ∈ reduceUnansweredFields [("a", ["", ""])] :=
  (c9_reducer_removes_only_unanswered.1 [("a", ["", ""])] "a" ["", ""]).mpr
    (by decide)

/-- The schema test the loop of `parseMapInterface` applies to one field
value: a non-empty string, or a non-empty array whose elements are all
strings. -/
def validFieldValue : Jvalue → Bool
  | .str s => !(s == "")
  | .arr elems => !elems.isEmpty && (allStrings elems).isSome
  | _ => false

/-- The value sequence a schema-valid field contributes to the result. -/
def fieldStrings : String × Jvalue → String × List String
  | (k, Jvalue.str s) => (k, [s])
  | (k, Jvalue.arr elems) => (k, (allStrings elems).getD [])
  | (k, _) => (k, [])

/-- Every error `fieldError` builds carries status 400. -/
theorem fieldError_status (k : String) (v : Jvalue) :
    (fieldError k v).Status = StatusBadRequest := by
  cases v <;> simp [fieldError]
  split <;> rfl

/-- The field loop succeeds on all-valid fields, producing each field's
value sequence in order. -/
theorem parseFields_all_valid : ∀ fields : List (String × Jvalue),
    (∀ p ∈ fields, validFieldValue p.2 = true) →
    parseFields fields = .ok (fields.map fieldStrings) := by
  intro fields
  induction fields with
  | nil => intro _; rfl
  | cons p rest ih =>
    intro h
    obtain ⟨k, v⟩ := p
    have hv := h (k, v) (List.mem_cons_self _ _)
    have hrest := ih (fun q hq => h q (List.mem_cons_of_mem _ hq))
    cases v with
    | str s =>
      simp only [validFieldValue] at hv
      have hs : ¬(s = "") := by simpa using hv
      simp [parseFields, hs, hrest, fieldStrings, Except.map]
    | arr elems =>
      simp only [validFieldValue, Bool.and_eq_true, Bool.not_eq_true'] at hv
      obtain ⟨hne, hsome⟩ := hv
      obtain ⟨ss, hss⟩ := Option.isSome_iff_exists.mp hsome
      simp [parseFields, hne, hss, hrest, fieldStrings, Except.map]
    | num l => simp [validFieldValue] at hv
    | bool b => simp [validFieldValue] at hv
    | null => simp [validFieldValue] at hv
    | obj fs => simp [validFieldValue] at hv

/-- If any field is invalid, the field loop fails with the error of some
invalid field. -/
theorem parseFields_invalid : ∀ (fields : List (String × Jvalue))
    (k : String) (v : Jvalue),
    (k, v) ∈ fields → validFieldValue v = false →
    ∃ k' v', (k', v') ∈ fields ∧ validFieldValue v' = false ∧
      parseFields fields = .error (fieldError k' v') := by
  intro fields
  induction fields with
  | nil => intro k v h _; cases h
  | cons p rest ih =>
    intro k v hmem hinv
    obtain ⟨k0, v0⟩ := p
    by_cases hv0 : validFieldValue v0 = true
    · have hrest : (k, v) ∈ rest := by
        rcases List.mem_cons.mp hmem with heq | hmem'
        · exfalso
          have : v = v0 := by
            have := congrArg Prod.snd heq
            simpa using this
          rw [this, hv0] at hinv
          exact absurd hinv (by simp)
        · exact hmem'
      obtain ⟨k', v', hm, hinv', herr⟩ := ih k v hrest hinv
      refine ⟨k', v', List.mem_cons_of_mem _ hm, hinv', ?_⟩
      cases v0 with
      | str s =>
        have hs : ¬(s = "") := by simpa [validFieldValue] using hv0
        simp [parseFields, hs, herr, Except.map]
      | arr elems =>
        simp only [validFieldValue, Bool.and_eq_true, Bool.not_eq_true'] at hv0
        obtain ⟨hne, hsome⟩ := hv0
        obtain ⟨ss, hss⟩ := Option.isSome_iff_exists.mp hsome
        simp [parseFields, hne, hss, herr, Except.map]
      | num l => simp [validFieldValue] at hv0
      | bool b => simp [validFieldValue] at hv0
      | null => simp [validFieldValue] at hv0
      | obj fs => simp [validFieldValue] at hv0
    · refine ⟨k0, v0, List.mem_cons_self _ _, by simpa using hv0, ?_⟩
      have hv0' : validFieldValue v0 = false := by simpa using hv0
      cases v0 with
      | str s =>
        have hs : s = "" := by simpa [validFieldValue] using hv0'
        simp [parseFields, hs, fieldError]
      | arr elems =>
        simp only [validFieldValue, Bool.and_eq_false_iff, Bool.not_eq_false'] at hv0'
        rcases hv0' with hemp | hnone
        · simp [parseFields, hemp, fieldError]
        · have hnone' : allStrings elems = none := Option.not_isSome_iff_eq_none.mp (by simpa using hnone)
          by_cases hemp : elems.isEmpty
          · simp [parseFields, hemp, fieldError]
          · simp [parseFields, hemp, hnone', fieldError]
      | num l => simp [parseFields]
      | bool b => simp [parseFields]
      | null => simp [parseFields]
      | obj fs => simp [parseFields]

/-- Claim C5: for a decoded non-empty top-level object, the parse succeeds
exactly on schema-valid fields — each non-empty string becomes a
single-element sequence and each non-empty all-string array becomes its
elements — and any invalid field value (empty string, empty array, array
with a non-string element, or a number/boolean/null/object) makes the whole
parse fail with a `BadRequest` error naming an invalid field. -/
theorem c5_json_field_schema : ∀ fields : List (String × Jvalue),
    (fields ≠ [] → (∀ p ∈ fields, validFieldValue p.2 = true) →
      parseMapInterface fields = .ok (fields.map fieldStrings)) ∧
    (∀ k v, (k, v) ∈ fields → validFieldValue v = false →
      ∃ k' v', (k', v') ∈ fields ∧ validFieldValue v' = false ∧
        parseMapInterface fields = .error (fieldError k' v') ∧
        (fieldError k' v').Status = StatusBadRequest) := by
  intro fields
  constructor
  · intro hne hall
    have hisEmpty : fields.isEmpty = false := by
      cases fields with
      | nil => exact absurd rfl hne
      | cons p rest => rfl
    unfold parseMapInterface
    rw [hisEmpty]
    simpa using parseFields_all_valid fields hall
  · intro k v hmem hinv
    obtain ⟨k', v', hm, hinv', herr⟩ := parseFields_invalid fields k v hmem hinv
    refine ⟨k', v', hm, hinv', ?_, fieldError_status k' v'⟩
    have hisEmpty : fields.isEmpty = false := by
      cases fields with
      | nil => cases hmem
      | cons p rest => rfl
    unfold parseMapInterface
    rw [hisEmpty]
    simpa using herr

/-- Witness for C5: the scenario body fields decode to the expected value
sequences. -/
theorem c5_witness :
    parseMapInterface
        [("name", Jvalue.str "charlie"),
         ("tags", Jvalue.arr [Jvalue.str "a", Jvalue.str "b"])] =
      .ok [("name", ["charlie"]), ("tags", ["a", "b"])] := by
  have h := (c5_json_field_schema
      [("name", Jvalue.str "charlie"),
       ("tags", Jvalue.arr [Jvalue.str "a", Jvalue.str "b"])]).1
    (by simp) (by decide)
  exact h

/-- How the JSON and URL-encoded branches of `GetFormContentWithConfig`
package a decoder outcome: results plus the boxed `*ParseError`. -/
def liftValuesOutcome : Except ParseError Form → GoFormResult
  | .ok results => ⟨some results, none, some none⟩
  | .error pe => ⟨none, none, some (some pe)⟩

/-- How the multipart branch packages a decoder outcome. -/
def liftMultipartOutcome : Except ParseError (Form × Files) → GoFormResult
  | .ok (results, files) => ⟨some results, some files, some none⟩
  | .error pe => ⟨none, none, some (some pe)⟩

/-- Claim C7: content negotiation — an empty `Content-Type` fails with
`UnsupportedMediaType` ("header is required"); exactly `application/json`
selects the JSON decoder; exactly `application/x-www-form-urlencoded`
selects the URL-encoded decoder; any value with prefix
`multipart/form-data` (boundary parameters included) selects the multipart
decoder; anything else fails with `UnsupportedMediaType` naming the value. -/
theorem c7_content_negotiation :
    ∀ (r : Request) (maxFormSize maxFormWithFilesSize maxMemory : Nat),
    (r.contentType = "" →
      GetFormContentWithConfig maxFormSize maxFormWithFilesSize maxMemory r =
        ⟨none, none,
          some (some ⟨StatusUnsupportedMediaType, "Content-Type header is required"⟩)⟩) ∧
    (r.contentType = headerValApplicationJSON →
      GetFormContentWithConfig maxFormSize maxFormWithFilesSize maxMemory r =
        liftValuesOutcome (parseApplicationJSON r.body maxFormSize)) ∧
    (r.contentType = headerValFormURLEncoded →
      GetFormContentWithConfig maxFormSize maxFormWithFilesSize maxMemory r =
        liftValuesOutcome (parseFormURLEncoded r.body r.rawQuery maxFormSize)) ∧
    (isMultipartFormHeader r.contentType = true →
      GetFormContentWithConfig maxFormSize maxFormWithFilesSize maxMemory r =
        liftMultipartOutcome (parseFormMultipart r.multipartOutcome)) ∧
    (r.contentType ≠ "" → r.contentType ≠ headerValApplicationJSON →
      r.contentType ≠ headerValFormURLEncoded →
      isMultipartFormHeader r.contentType = false →
      GetFormContentWithConfig maxFormSize maxFormWithFilesSize maxMemory r =
        ⟨none, none,
          some (some ⟨StatusUnsupportedMediaType,
            s!"Content-Type header {r.contentType} is unsupported"⟩)⟩) := by
  intro r maxFormSize maxFormWithFilesSize maxMemory
  refine ⟨?_, ?_, ?_, ?_, ?_⟩
  · intro h
    have h1 : isMultipartFormHeader "" = false := by decide
    have h2 : ¬(("" : String) = headerValApplicationJSON) := by decide
    have h3 : ¬(("" : String) = headerValFormURLEncoded) := by decide
    have h4 : ¬(("" : String) = headerValFormMultipart) := by decide
    simp [GetFormContentWithConfig, getContentType, h, h1, h2, h3, h4]
  · intro h
    have h1 : isMultipartFormHeader headerValApplicationJSON = false := by decide
    cases hp : parseApplicationJSON r.body maxFormSize with
    | ok m => simp [GetFormContentWithConfig, getContentType, h, h1, hp, liftValuesOutcome]
    | error pe => simp [GetFormContentWithConfig, getContentType, h, h1, hp, liftValuesOutcome]
  · intro h
    have h1 : isMultipartFormHeader headerValFormURLEncoded = false := by decide
    have h2 : ¬(headerValFormURLEncoded = headerValApplicationJSON) := by decide
    cases hp : parseFormURLEncoded r.body r.rawQuery maxFormSize with
    | ok m =>
      simp [GetFormContentWithConfig, getContentType, h, h1, h2, hp, liftValuesOutcome]
    | error pe =>
      simp [GetFormContentWithConfig, getContentType, h, h1, h2, hp, liftValuesOutcome]
  · intro h
    have h2 : ¬(headerValFormMultipart = headerValApplicationJSON) := by decide
    have h3 : ¬(headerValFormMultipart = headerValFormURLEncoded) := by decide
    cases hp : parseFormMultipart r.multipartOutcome with
    | ok mf =>
      obtain ⟨m, fs⟩ := mf
      simp [GetFormContentWithConfig, getContentType, h, h2, h3, hp, liftMultipartOutcome]
    | error pe =>
      simp [GetFormContentWithConfig, getContentType, h, h2, h3, hp, liftMultipartOutcome]
  · intro h0 h1 h2 h3
    have h4 : r.contentType ≠ headerValFormMultipart := by
      intro heq
      rw [heq] at h3
      exact absurd h3 (by decide)
    simp [GetFormContentWithConfig, getContentType, h0, h1, h2, h3, h4]

/-- Witness for C7: a boundary-carrying multipart content type is handled
by the multipart decoder even though it is not exactly equal to
`multipart/form-data`. -/
theorem c7_witness :
    GetFormContentWithConfig 16 16 16
        ⟨"multipart/form-data; boundary=x", "", "", .ok ([("a", ["b"])], [])⟩ =
      liftMultipartOutcome (parseFormMultipart (.ok ([("a", ["b"])], []))) :=
  (c7_content_negotiation
      ⟨"multipart/form-data; boundary=x", "", "", .ok ([("a", ["b"])], [])⟩
      16 16 16).2.2.2.1 (by decide)

/-- The scanner's whitespace skipping empties the input exactly when the
input is all whitespace. -/
theorem skipWS_isEmpty_eq_all (cs : List Char) :
    (skipWS cs).isEmpty = cs.all isJsonSpace := by
  induction cs with
  | nil => rfl
  | cons c rest ih =>
    by_cases hc : isJsonSpace c
    · simp [skipWS, hc, ih]
    · simp [skipWS, hc]

/-- Claim C10: once the first `Decode` has produced a top-level object (and
its fields validate), the parse succeeds exactly when the rest of the
within-ceiling stream is whitespace only; any remaining non-whitespace —
whether or not it forms a complete second JSON value — fails with 400
"Request body must only contain a single JSON object". -/
theorem c10_trailing_content :
    ∀ (body : String) (limit : Nat) (fields : List (String × Jvalue))
      (rest : List Char) (res : List (String × List String)),
    body.data.length ≤ limit →
    decodeOne body.data .eof = .ok (Jvalue.obj fields, rest) →
    parseMapInterface fields = .ok res →
    ((parseApplicationJSON body limit = .ok res ↔ rest.all isJsonSpace = true) ∧
     (rest.all isJsonSpace = false →
       parseApplicationJSON body limit =
         .error ⟨StatusBadRequest,
           "Request body must only contain a single JSON object"⟩)) := by
  intro body limit fields rest res hle hdec hmap
  have hstream : mkStream body.data limit = (body.data, Terminator.eof) := by
    simp [mkStream, hle]
    exact hle
  have hsw : (skipWS rest).isEmpty = rest.all isJsonSpace :=
    skipWS_isEmpty_eq_all rest
  by_cases hall : rest.all isJsonSpace = true
  · have hcond : (skipWS rest).isEmpty = true := by rw [hsw]; exact hall
    have hrun : parseApplicationJSON body limit = parseMapInterface fields := by
      simp only [parseApplicationJSON, hstream, hdec, decodeIntoMap]
      simp [hcond]
    refine ⟨?_, ?_⟩
    · rw [hrun, hmap, hall]
      simp
    · intro hfalse
      rw [hall] at hfalse
      cases hfalse
  · have hfalse : rest.all isJsonSpace = false := by
      cases hv : rest.all isJsonSpace with
      | false => rfl
      | true => exact absurd hv hall
    have hcond : (skipWS rest).isEmpty = false := by rw [hsw]; exact hfalse
    have hrun : parseApplicationJSON body limit =
        .error ⟨StatusBadRequest,
          "Request body must only contain a single JSON object"⟩ := by
      simp only [parseApplicationJSON, hstream, hdec, decodeIntoMap]
      simp [hcond]
    refine ⟨?_, fun _ => hrun⟩
    rw [hrun, hfalse]
    simp

/-- Witness for C10: trailing ` x` after the object triggers the
single-object rejection. -/
theorem c10_witness :
    parseApplicationJSON "\x7b\"a\":\"b\"\x7d x" 64 =
      .error ⟨StatusBadRequest,
        "Request body must only contain a single JSON object"⟩ :=
  (c10_trailing_content "\x7b\"a\":\"b\"\x7d x" 64 [("a", Jvalue.str "b")]
      [' ', 'x'] [("a", ["b"])] (by decide) (by rfl) (by rfl)).2 (by rfl)

/-- Top-level value kinds other than object and null (array, string,
number, boolean). -/
def nonObjectNonNull : Jvalue → Bool
  | .obj _ => false
  | .null => false
  | _ => true

/-- Counterexample to claim C3 as stated: the JSON body `["a"]` — a
non-object top level — fails, but with status 500 ("JSON parsing error"),
not the claimed `BadRequest`: the `*json.UnmarshalTypeError` matches none
of the handled cases and falls into the `default` branch. -/
theorem c3_counterexample :
    parseApplicationJSON "[\"a\"]" megabyte =
      .error ⟨StatusInternalServerError, "JSON parsing error"⟩ ∧
    StatusInternalServerError ≠ StatusBadRequest := by
  exact ⟨by decide, by decide⟩

/-- Claim C3 as amended: a top-level array, string, number, or boolean
fails with `InternalServerError` 500 "JSON parsing error"; a top-level
`null` unmarshals into the untouched empty map and (with no trailing
content) fails with `BadRequest` "JSON object contains no fields". -/
theorem c3_amended_toplevel_types :
    ∀ (body : String) (limit : Nat) (v : Jvalue) (rest : List Char),
    decodeOne (mkStream body.data limit).1 (mkStream body.data limit).2 =
      .ok (v, rest) →
    ((nonObjectNonNull v = true →
      parseApplicationJSON body limit =
        .error ⟨StatusInternalServerError, "JSON parsing error"⟩) ∧
     (v = Jvalue.null → (skipWS rest).isEmpty = true →
      (mkStream body.data limit).2 = Terminator.eof →
      parseApplicationJSON body limit =
        .error ⟨StatusBadRequest, "JSON object contains no fields"⟩)) := by
  intro body limit v rest hdec
  constructor
  · intro hv
    simp only [parseApplicationJSON, hdec]
    cases v with
    | obj fields => simp [nonObjectNonNull] at hv
    | null => simp [nonObjectNonNull] at hv
    | str s => simp [decodeIntoMap]
    | num l => simp [decodeIntoMap]
    | bool b => simp [decodeIntoMap]
    | arr elems => simp [decodeIntoMap]
  · intro hv hws ht
    subst hv
    simp only [parseApplicationJSON, hdec, decodeIntoMap]
    simp [hws, ht, parseMapInterface]

/-- Witness for the amended C3 at concrete inputs `5` and `null`. -/
theorem c3_witness :
    parseApplicationJSON "5" 64 =
      .error ⟨StatusInternalServerError, "JSON parsing error"⟩ ∧
    parseApplicationJSON "null" 64 =
      .error ⟨StatusBadRequest, "JSON object contains no fields"⟩ :=
  ⟨(c3_amended_toplevel_types "5" 64 (Jvalue.num "5") [] (by rfl)).1 (by rfl),
   (c3_amended_toplevel_types "null" 64 Jvalue.null [] (by rfl)).2 rfl
     (by rfl) (by rfl)⟩

